import Mathlib

/-!
Verification development for the VoiceConv repository.

The repository contains two parallel realizations of the spoken-dialogue
gateway:

* `src/server/` — a synchronous pipeline (`audio_utils.py`, `pipeline.py`,
  `app.py`): audio chunks are buffered, and an explicit `stop` control
  message drains the buffer, transcribes it, generates a reply and returns
  the synthesized audio in one response burst.
* `src/backend/` — an asyncio streaming implementation (`main.py`,
  `pipeline/recognizer.py`, `pipeline/conversation.py`, `pipeline/tts.py`):
  audio frames are fed to a streaming recognizer, finalized transcripts
  trigger reply generation and a concurrently scheduled TTS task, and
  `cancel_tts` implements barge-in cancellation.

The external ML engines (Whisper, vosk, the causal LM, the TTS model) are
opaque collaborators per the specification; they are modelled as function
parameters.  All repository-owned logic (buffering, merging, conversion,
conversation bounding, response fallback logic, the websocket event loops,
cancellation) is translated directly from the Python source.

Machine integers: int16 PCM samples are modelled as `Int` with the exact
wrap-around of `numpy.astype(int16)` made explicit where it matters;
float32 samples are modelled as `Rat`.
-/

namespace VoiceConv

/-! ## src/server/audio_utils.py -/

/-- `np.clip(x, -1.0, 1.0)` on a single sample. -/
def clipUnit (x : Rat) : Rat := max (-1) (min 1 x)

/-- Truncation toward zero, the rounding mode of `numpy.astype` from
float to integer. -/
def truncToInt (x : Rat) : Int := if 0 ≤ x then ⌊x⌋ else -⌊-x⌋

/-- Wrap-around of an integer into the int16 range, the overflow behavior
of `numpy.astype(np.int16)`. -/
def int16OfInt (n : Int) : Int := (n + 32768) % 65536 - 32768

/-- One sample of `audio_utils.float32_to_int16`: clip to `[-1, 1]`,
scale by 32767, convert to int16. -/
def float32ToInt16Sample (x : Rat) : Int :=
  int16OfInt (truncToInt (clipUnit x * 32767))

/-- `audio_utils.float32_to_int16` (src/server/audio_utils.py:18-23).
The `astype(np.float32)` coercion of non-float32 inputs is absorbed by
modelling every incoming sample as a rational. -/
def float32_to_int16 (audio : List Rat) : List Int :=
  audio.map float32ToInt16Sample

/-- `audio_utils.int16_to_float32` (src/server/audio_utils.py:11-15) on an
int16 input array (the only dtype accepted by the source). -/
def int16_to_float32 (audio : List Int) : List Rat :=
  audio.map fun s => (s : Rat) / 32768

/-- `audio_utils.merge_chunks` (src/server/audio_utils.py:38-42):
`np.concatenate` of the chunk list, empty list giving the empty array. -/
def merge_chunks (chunks : List (List Int)) : List Int :=
  if chunks = [] then [] else chunks.flatten

/-- `SpeechSynthesizer._to_int16` (src/backend/pipeline/tts.py:34-38),
applied to the (possibly resampled) waveform: clip to `[-1, 1]`, scale by
32767, convert to int16.  The scipy resampling step is an external
numeric routine; `waveform` is its output. -/
def toInt16Backend (waveform : List Rat) : List Int :=
  waveform.map float32ToInt16Sample

/-! ## src/server/pipeline.py — ConversationPipeline state -/

/-- The per-connection mutable state of `ConversationPipeline`
(src/server/pipeline.py:108-117): the utterance chunk buffer `_chunks`
and the conversation history `_history`. -/
structure SPipe where
  chunks : List (List Int)
  history : List String
deriving DecidableEq, Repr

/-- `ConversationPipeline.start_utterance` (src/server/pipeline.py:119-121). -/
def startUtterance (p : SPipe) : SPipe := { p with chunks := [] }

/-- `ConversationPipeline.reset` (src/server/pipeline.py:123-126). -/
def resetPipe (_p : SPipe) : SPipe := { chunks := [], history := [] }

/-- `ConversationPipeline.append_audio` (src/server/pipeline.py:128-132):
empty byte payloads are a no-op, otherwise the decoded int16 chunk is
appended. -/
def appendAudio (p : SPipe) (pcm : List Int) : SPipe :=
  if pcm = [] then p else { p with chunks := p.chunks ++ [pcm] }

/-- `ConversationPipeline.has_audio` (src/server/pipeline.py:134-135). -/
def hasAudio (p : SPipe) : Bool :=
  p.chunks.any fun c => c.length ≠ 0

/-! ## src/server/pipeline.py — process, and src/server/app.py — gateway

The three ML engines wrapped by `SpeechToText.transcribe`,
`ConversationalResponder.reply` and `SpeechSynthesizer.synthesize` are
external collaborators (spec §6); they are modelled as opaque function
parameters bundled in `SEngines`.  `synth` returns the normalized float
waveform produced by `SpeechSynthesizer.synthesize`. -/

structure SEngines where
  transcribe : List Rat → String
  reply : String → List String → String
  synth : String → List Rat
  sampleRate : Nat

/-- The dictionary returned by `ConversationPipeline.process` on success
(src/server/pipeline.py:152-157). -/
structure ProcOut where
  transcript : String
  reply : String
  audio : List Int
  sampleRate : Nat
deriving DecidableEq, Repr

/-- `ConversationPipeline.process` (src/server/pipeline.py:137-157).
Returns the optional result together with the updated pipeline state
(the source mutates `self._history` in place; `_chunks` is left
untouched by `process`). -/
def SPipe.process (E : SEngines) (p : SPipe) : Option ProcOut × SPipe :=
  if hasAudio p then
    let merged := merge_chunks p.chunks
    let floatAudio := int16_to_float32 merged
    let t := E.transcribe floatAudio
    if t = "" then (none, p)
    else
      let r := E.reply t p.history
      let h := (p.history ++ ["User: " ++ t]) ++ ["Assistant: " ++ r]
      let audio := float32_to_int16 (E.synth r)
      (some ⟨t, r, audio, E.sampleRate⟩, { p with history := h })
  else (none, p)

/-- Outbound messages of the server gateway (src/server/app.py). -/
inductive SMsg where
  | transcript (text : String)
  | assistantResponse (text : String) (sampleRate : Nat)
  | audioFrame (pcm : List Int)
  | assistantAudioEnd
deriving DecidableEq, Repr

/-- Inbound events of the server gateway: a binary audio frame, or one of
the JSON control messages of `handle_control_message`
(src/server/app.py:87-111).  `unknown` is any unrecognized message type. -/
inductive SEv where
  | audio (pcm : List Int)
  | start
  | stop
  | reset
  | unknown
deriving DecidableEq, Repr

/-- One iteration of `audio_gateway`'s receive loop together with
`handle_control_message` (src/server/app.py:66-111).  The session state is
the pipeline plus the ordered list of messages sent so far. -/
def stepS (E : SEngines) (s : SPipe × List SMsg) (e : SEv) : SPipe × List SMsg :=
  match e with
  | SEv.audio pcm => (appendAudio s.1 pcm, s.2)
  | SEv.start => (startUtterance s.1, s.2)
  | SEv.reset => (resetPipe s.1, s.2)
  | SEv.unknown => s
  | SEv.stop =>
      match s.1.process E with
      | (none, p) => (startUtterance p, s.2 ++ [SMsg.transcript ""])
      | (some r, p) =>
          (startUtterance p,
           s.2 ++ [SMsg.transcript r.transcript,
                   SMsg.assistantResponse r.reply r.sampleRate,
                   SMsg.audioFrame r.audio,
                   SMsg.assistantAudioEnd])

/-- A whole server session: the pipeline starts with empty buffer and
history, and `audio_gateway` calls `start_utterance` right after accept
(src/server/app.py:68-70). -/
def runS (E : SEngines) (evs : List SEv) : SPipe × List SMsg :=
  evs.foldl (stepS E) (startUtterance ⟨[], []⟩, [])

/-! ## src/backend/pipeline/conversation.py — ConversationManager -/

/-- Python `str.lower()` (ASCII, which is all the source compares). -/
def pyLower (s : String) : String := ⟨s.data.map Char.toLower⟩

/-- Python `str.strip()` with no argument: remove leading and trailing
whitespace. -/
def pyStrip (s : String) : String :=
  ⟨((s.data.dropWhile Char.isWhitespace).reverse.dropWhile Char.isWhitespace).reverse⟩

/-- Python `str.endswith(t)`. -/
def pyEndsWith (s t : String) : Bool := t.data.isSuffixOf s.data

/-- Contiguous-sublist check on character lists. -/
def containsSubList (needle : List Char) : List Char → Bool
  | [] => needle.isEmpty
  | c :: rest => needle.isPrefixOf (c :: rest) || containsSubList needle rest

/-- Python `needle in hay` on strings: substring containment. -/
def containsSub (hay needle : String) : Bool :=
  containsSubList needle.toList hay.toList

/-- Python `str.split()` with no separator: split on whitespace runs,
dropping empty pieces. -/
def pySplitWs (s : String) : List (List Char) :=
  (s.data.splitOnP Char.isWhitespace).filter fun w => w ≠ []

/-- A `Utterance` record of the backend conversation history
(src/backend/pipeline/conversation.py:8-12).  The wall-clock timestamp
field is external input and not modelled. -/
structure Utt where
  role : String
  text : String
deriving DecidableEq, Repr

/-- `ConversationManager._append` (src/backend/pipeline/conversation.py:36-39):
append, then truncate to the most recent `maxHistory` entries
(`self.history[-self.max_history:]`). -/
def appendBounded (maxHistory : Nat) (h : List Utt) (u : Utt) : List Utt :=
  let h2 := h ++ [u]
  if maxHistory < h2.length then h2.drop (h2.length - maxHistory) else h2

/-- `ConversationManager._build_response`
(src/backend/pipeline/conversation.py:41-69).  The branch answering
"time" interpolates `datetime.now().strftime` output, passed in as
`now`. -/
def buildResponse (now : String) (userText : String) : String :=
  let lower := pyLower userText
  if containsSub lower "hello" || containsSub lower "hi" || containsSub lower "hey" then
    "Hello! How can I help you today?"
  else if containsSub lower "time" then
    "It\x27s currently " ++ now ++ ". What else would you like to talk about?"
  else if containsSub lower "your name" then
    "I\x27m an offline demo assistant built for streaming conversations."
  else if pyEndsWith userText "?" then
    "That\x27s an interesting question. I\x27m not connected to a large language model, but I\x27d love to hear more details so we can reason about it together."
  else if (pySplitWs userText).length < 4 then
    "Tell me more so I can respond with something helpful."
  else
    "I hear you. This prototype focuses on the real-time audio pipeline, so my responses are intentionally simple. Feel free to ask about how the system works."

/-- `ConversationManager.generate_response`
(src/backend/pipeline/conversation.py:25-34): strip the input; on an
empty result return the fixed fallback without touching history;
otherwise append the user turn, build the response, append the
assistant turn.  `max_history` is the constructor default 6
(src/backend/main.py:40).  Returns (new history, response text). -/
def generateResponse (now : String) (h : List Utt) (userText0 : String) :
    List Utt × String :=
  let userText := pyStrip userText0
  if userText = "" then (h, "I\x27m still listening. Could you repeat that?")
  else
    let h1 := appendBounded 6 h ⟨"user", userText⟩
    let resp := buildResponse now userText
    let h2 := appendBounded 6 h1 ⟨"assistant", resp⟩
    (h2, resp)

/-! ## src/backend/main.py — the asyncio websocket session

The session loop `websocket_endpoint` (src/backend/main.py:42-122) owns a
single `tts_task` variable, a conversation manager and a streaming
recognizer.  The recognizer (vosk) is an external engine: its output on
each audio frame is carried on the inbound event itself.  The TTS engine
is external as well: the number of 250ms chunks `stream_speech` yields for
a reply is an opaque parameter `synthChunks`.

Concurrency model: the `stream_tts` task runs interleaved with the main
receive loop.  A `yieldTTS` event is a scheduler step in which the active
task emits its next chunk; placing `yieldTTS` events anywhere in the event
list covers every interleaving the asyncio loop can produce.  `cancel_tts`
cancels the task and awaits it before returning, so a cancelled task emits
nothing after the cancellation step; a chunk whose transport write was
already in flight is a chunk event that precedes the cancellation in the
trace. -/

/-- Lifecycle status of one `stream_tts` task. -/
inductive TStatus where
  | running
  | cancelled
  | finished
deriving DecidableEq, Repr

/-- One synthesis task: chunks emitted so far, total chunks the synthesis
will produce, and its status. -/
structure TaskRec where
  sent : Nat
  total : Nat
  status : TStatus
deriving DecidableEq, Repr

/-- Outbound messages of the backend session (src/backend/main.py).
`audioChunk tid k` is the `k`-th binary frame written by the task with
creation index `tid`; `interim` is a `partial_transcript` message. -/
inductive BMsg where
  | pong
  | sessionReset
  | clearAudioQueue
  | interim (text : String)
  | finalTranscript (text : String)
  | assistantText (text : String)
  | audioChunk (tid : Nat) (k : Nat)
deriving DecidableEq, Repr

/-- Backend session state: `cur` is the `tts_task` variable (an index
into `tasks`, the arena of all tasks ever created this session),
`history` the conversation manager state, `out` the outbound trace. -/
structure BState where
  cur : Option Nat
  tasks : List TaskRec
  history : List Utt
  out : List BMsg
deriving DecidableEq, Repr

/-- Inbound events of the backend session.  `recog fin ptxt` is a binary
audio frame on which `StreamingRecognizer.accept_audio` returned the
finalized text `fin` (`""` when none) and the partial text `ptxt`
(`""` when none); `stopReset` covers both `stop` and `reset`, which
src/backend/main.py:81-86 handles identically; `otherText` is any other
JSON message (ignored); `yieldTTS` is a scheduler step of the active
synthesis task. -/
inductive BEv where
  | recog (fin : String) (ptxt : String)
  | stopReset
  | ping
  | otherText
  | yieldTTS
deriving DecidableEq, Repr

/-- External parameters of a backend session: the wall-clock string used
by the "time" reply branch, and the chunk count of the TTS engine per
reply text. -/
structure BParams where
  now : String
  synthChunks : String → Nat

/-- Append outbound messages. -/
def emitMsgs (st : BState) (ms : List BMsg) : BState :=
  { st with out := st.out ++ ms }

/-- `conversation_manager.reset()` (src/backend/pipeline/conversation.py:22-23). -/
def clearHistory (st : BState) : BState := { st with history := [] }

/-- The task-arena effect of `cancel_tts` (src/backend/main.py:51-57):
`if tts_task and not tts_task.done(): tts_task.cancel(); await tts_task`.
A running referenced task becomes `cancelled`; a finished task (already
done) is left alone. -/
def cancelTasks (cur : Option Nat) (tasks : List TaskRec) : List TaskRec :=
  match cur with
  | some i =>
      match tasks.get? i with
      | some t =>
          if t.status = TStatus.running then
            tasks.set i { t with status := TStatus.cancelled }
          else tasks
      | none => tasks
  | none => tasks

/-- `cancel_tts` (src/backend/main.py:49-65): if the task exists and is
not done, cancel it and await it (its status becomes `cancelled` and it
can emit no further chunk); drop the reference; then notify the client
with `clear_audio_queue` — regardless of whether a task was active.  The
source guards the notification only by the socket still being connected;
the model covers the lifetime of a connected session. -/
def cancelTts (st : BState) : BState :=
  { st with cur := none, tasks := cancelTasks st.cur st.tasks,
            out := st.out ++ [BMsg.clearAudioQueue] }

/-- `asyncio.create_task(stream_tts())` (src/backend/main.py:115): a new
running task is appended to the arena and `tts_task` points at it. -/
def startTask (st : BState) (total : Nat) : BState :=
  { st with cur := some st.tasks.length,
            tasks := st.tasks ++ [⟨0, total, TStatus.running⟩] }

/-- The `if final_result:` block of the receive loop
(src/backend/main.py:100-115): cancel any active synthesis, forward the
final transcript, generate the reply (updating the conversation
history), forward the reply text, then start the new synthesis task. -/
def handleFinal (P : BParams) (st : BState) (fin : String) : BState :=
  let st1 := emitMsgs (cancelTts st) [BMsg.finalTranscript fin]
  let pr := generateResponse P.now st1.history fin
  let st2 := { st1 with history := pr.1,
                        out := st1.out ++ [BMsg.assistantText pr.2] }
  startTask st2 (P.synthChunks pr.2)

/-- One step of the backend session: either the receive loop handles one
inbound message (src/backend/main.py:68-115), or the scheduler runs the
active synthesis task for one chunk (src/backend/main.py:110-113). -/
def stepB (P : BParams) (st : BState) : BEv → BState
  | BEv.ping => emitMsgs st [BMsg.pong]
  | BEv.otherText => st
  | BEv.stopReset => emitMsgs (cancelTts (clearHistory st)) [BMsg.sessionReset]
  | BEv.recog fin ptxt =>
      let st1 := if ptxt = "" then st else emitMsgs st [BMsg.interim ptxt]
      if fin = "" then st1 else handleFinal P st1 fin
  | BEv.yieldTTS =>
      match st.cur with
      | none => st
      | some i =>
          match st.tasks.get? i with
          | none => st
          | some t =>
              if t.status = TStatus.running ∧ t.sent < t.total then
                let t2 : TaskRec :=
                  { t with sent := t.sent + 1,
                           status := if t.sent + 1 = t.total then TStatus.finished
                                     else TStatus.running }
                { st with tasks := st.tasks.set i t2,
                          out := st.out ++ [BMsg.audioChunk i t.sent] }
              else st

/-- Initial backend session state (fresh connection). -/
def initB : BState := ⟨none, [], [], []⟩

/-- A whole backend session on a list of inbound/scheduler events. -/
def runB (P : BParams) (evs : List BEv) : BState :=
  evs.foldl (stepB P) initB

/-! ## The backend session invariant

`countAT` counts `assistant_text` messages in a trace; each one is
emitted exactly when a synthesis task is created
(src/backend/main.py:106-115), so the number of `assistant_text`
messages in the trace equals the number of tasks ever created, and the
creation index of a task equals the count of `assistant_text` messages
that precede its creation. -/

/-- Is this message an `assistant_text` message? -/
def isAT : BMsg → Bool
  | BMsg.assistantText _ => true
  | _ => false

/-- Number of `assistant_text` messages in a trace. -/
def countAT (l : List BMsg) : Nat := l.countP isAT

/-- No task in the arena is running. -/
def NoRunning (tasks : List TaskRec) : Prop :=
  ∀ i t, tasks.get? i = some t → t.status ≠ TStatus.running

/-- Inductive invariant of the backend session, over the `tts_task`
reference, the task arena and the outbound trace. -/
structure InvB (cur : Option Nat) (tasks : List TaskRec) (out : List BMsg) : Prop where
  running_cur : ∀ i t, tasks.get? i = some t → t.status = TStatus.running →
    cur = some i
  count_tasks : countAT out = tasks.length
  clear_le_cur : ∀ r, cur = some r → ∀ i,
    out.get? i = some BMsg.clearAudioQueue → countAT (out.take (i + 1)) ≤ r
  chunk_after_clear : ∀ i j tid k, i < j →
    out.get? i = some BMsg.clearAudioQueue →
    out.get? j = some (BMsg.audioChunk tid k) → countAT (out.take (i + 1)) ≤ tid
  chunk_sent : ∀ j tid k, out.get? j = some (BMsg.audioChunk tid k) →
    ∃ t, tasks.get? tid = some t ∧ k < t.sent
  chunk_mono : ∀ i j tid k₁ k₂, i < j →
    out.get? i = some (BMsg.audioChunk tid k₁) →
    out.get? j = some (BMsg.audioChunk tid k₂) → k₁ < k₂
  chunk_birth : ∀ j tid k, out.get? j = some (BMsg.audioChunk tid k) →
    tid < countAT (out.take (j + 1))

/-! ## Helper lemmas: audio buffer -/

theorem merge_chunks_eq_flatten (cs : List (List Int)) :
    merge_chunks cs = cs.flatten := by
  unfold merge_chunks
  split
  · simp [*]
  · rfl

theorem flatten_chunks_foldl_appendAudio (cs : List (List Int)) (p : SPipe) :
    ((cs.foldl appendAudio p).chunks).flatten = p.chunks.flatten ++ cs.flatten := by
  induction cs generalizing p with
  | nil => simp
  | cons c cs ih =>
      by_cases hc : c = []
      · subst hc
        simp [List.foldl_cons, appendAudio, ih]
      · simp only [List.foldl_cons, appendAudio, if_neg hc]
        rw [ih]
        simp

/-! ## Helper lemmas: int16 conversion -/

theorem clipUnit_mem (x : Rat) : -1 ≤ clipUnit x ∧ clipUnit x ≤ 1 := by
  unfold clipUnit
  constructor
  · exact le_max_left _ _
  · exact max_le (by norm_num) (min_le_left _ _)

theorem truncToInt_bounds (b : Int) {x : Rat} (hb : 0 ≤ b)
    (h1 : -(b : Rat) ≤ x) (h2 : x ≤ (b : Rat)) :
    -b ≤ truncToInt x ∧ truncToInt x ≤ b := by
  unfold truncToInt
  split
  next hx =>
    constructor
    · exact le_trans (by omega) (Int.floor_nonneg.mpr hx)
    · have := Int.floor_le_floor h2
      simpa using this
  next hx =>
    have hx0 : 0 ≤ -x := by push_neg at hx; linarith
    constructor
    · have : ⌊-x⌋ ≤ b := by
        have := Int.floor_le_floor (show -x ≤ (b : Rat) by linarith)
        simpa using this
      omega
    · have : 0 ≤ ⌊-x⌋ := Int.floor_nonneg.mpr hx0
      omega

theorem int16OfInt_eq_self {n : Int} (h1 : -32768 ≤ n) (h2 : n ≤ 32767) :
    int16OfInt n = n := by
  unfold int16OfInt
  have : (n + 32768) % 65536 = n + 32768 := Int.emod_eq_of_lt (by omega) (by omega)
  omega

theorem float32ToInt16Sample_bounds (x : Rat) :
    -32767 ≤ float32ToInt16Sample x ∧ float32ToInt16Sample x ≤ 32767 := by
  have hc := clipUnit_mem x
  have h1 : -(32767 : Rat) ≤ clipUnit x * 32767 := by nlinarith [hc.1, hc.2]
  have h2 : clipUnit x * 32767 ≤ (32767 : Rat) := by nlinarith [hc.1, hc.2]
  have ht := truncToInt_bounds 32767
    (by norm_num) (by exact_mod_cast h1) (by exact_mod_cast h2)
  unfold float32ToInt16Sample
  rw [int16OfInt_eq_self (by omega) (by omega)]
  omega

/-! ## Helper lemmas: bounded conversation history (backend) -/

theorem appendBounded_eq_drop (n : Nat) (h : List Utt) (u : Utt) :
    appendBounded n h u = (h ++ [u]).drop ((h.length + 1) - n) := by
  show (if n < (h ++ [u]).length then
          (h ++ [u]).drop ((h ++ [u]).length - n) else h ++ [u])
        = (h ++ [u]).drop ((h.length + 1) - n)
  by_cases hc : n < (h ++ [u]).length
  · rw [if_pos hc]
    congr 1
    simp
  · rw [if_neg hc]
    have h0 : (h.length + 1) - n = 0 := by
      simp only [List.length_append, List.length_singleton] at hc
      omega
    rw [h0, List.drop_zero]

theorem appendBounded_lastN (n : Nat) (xs : List Utt) (u : Utt) :
    appendBounded n (xs.drop (xs.length - n)) u
      = (xs ++ [u]).drop ((xs.length + 1) - n) := by
  have hlen : (xs.drop (xs.length - n)).length = xs.length - (xs.length - n) := by
    simp
  rw [appendBounded_eq_drop, List.drop_append_eq_append_drop, List.drop_drop,
    List.drop_append_eq_append_drop, hlen]
  have hA : (xs.length - n) + ((xs.length - (xs.length - n) + 1) - n)
      = (xs.length + 1) - n := by omega
  have hB : ((xs.length - (xs.length - n) + 1) - n) - (xs.length - (xs.length - n))
      = ((xs.length + 1) - n) - xs.length := by omega
  rw [hA, hB]

theorem foldl_appendBounded_lastN (n : Nat) (us : List Utt) :
    us.foldl (appendBounded n) [] = us.drop (us.length - n) := by
  induction us using List.reverseRecOn with
  | nil => simp
  | append_singleton xs u ih =>
      rw [List.foldl_append, List.foldl_cons, List.foldl_nil, ih,
        appendBounded_lastN]
      simp

/-! ## Helper lemmas: the server process success path -/

theorem process_eq_some {E : SEngines} {p : SPipe} {r : ProcOut} {p' : SPipe}
    (hp : p.process E = (some r, p')) :
    r.transcript = E.transcribe (int16_to_float32 (merge_chunks p.chunks)) ∧
    r.reply = E.reply r.transcript p.history ∧
    r.audio = float32_to_int16 (E.synth r.reply) ∧
    r.sampleRate = E.sampleRate ∧
    p'.history = p.history ++ ["User: " ++ r.transcript, "Assistant: " ++ r.reply] ∧
    p'.chunks = p.chunks := by
  unfold SPipe.process at hp
  by_cases ha : hasAudio p
  · rw [if_pos ha] at hp
    by_cases ht : E.transcribe (int16_to_float32 (merge_chunks p.chunks)) = ""
    · simp only [ht, if_pos] at hp
      exact absurd (congrArg Prod.fst hp) (by simp)
    · simp only [if_neg ht] at hp
      have h1 := congrArg Prod.fst hp
      have h2 := congrArg Prod.snd hp
      simp only [Prod.fst, Prod.snd, Option.some.injEq] at h1 h2
      subst h1
      subst h2
      simp
  · rw [if_neg ha] at hp
    exact absurd (congrArg Prod.fst hp) (by simp)

/-! ## Helper lemmas: traces -/

theorem countAT_append (l₁ l₂ : List BMsg) :
    countAT (l₁ ++ l₂) = countAT l₁ + countAT l₂ :=
  List.countP_append _ _ _

theorem countAT_take_le (l : List BMsg) (n : Nat) :
    countAT (l.take n) ≤ countAT l := by
  conv_rhs => rw [← List.take_append_drop n l]
  rw [countAT_append]
  omega

theorem countAT_singleton_plain (m : BMsg) (hAT : isAT m = false) :
    countAT [m] = 0 := by
  simp [countAT, List.countP_cons, hAT]

theorem get?_concat_cases {l : List BMsg} {m x : BMsg} {i : Nat}
    (h : (l ++ [m]).get? i = some x) :
    (i < l.length ∧ l.get? i = some x) ∨ (i = l.length ∧ x = m) := by
  by_cases hi : i < l.length
  · exact Or.inl ⟨hi, by rwa [List.get?_append hi] at h⟩
  · push_neg at hi
    rw [List.get?_append_right hi] at h
    have h0 : i - l.length = 0 := by
      by_contra h0
      rw [List.get?_eq_none.mpr (by simp; omega)] at h
      cases h
    rw [h0] at h
    simp at h
    exact Or.inr ⟨by omega, h.symm⟩

theorem countAT_take_concat {l δ : List BMsg} {n : Nat} (h : n ≤ l.length) :
    countAT ((l ++ δ).take n) = countAT (l.take n) := by
  rw [List.take_append_of_le_length h]

/-! ## Helper lemmas: invariant preservation -/

theorem InvB.emit_plain {cur : Option Nat} {tasks : List TaskRec} {out : List BMsg}
    (H : InvB cur tasks out) (m : BMsg)
    (hclear : m ≠ BMsg.clearAudioQueue) (hAT : isAT m = false)
    (hchunk : ∀ a b, m ≠ BMsg.audioChunk a b) :
    InvB cur tasks (out ++ [m]) where
  running_cur := H.running_cur
  count_tasks := by
    rw [countAT_append, countAT_singleton_plain m hAT, Nat.add_zero]
    exact H.count_tasks
  clear_le_cur := by
    intro r hr i hi
    rcases get?_concat_cases hi with ⟨hlt, hold⟩ | ⟨_, hm⟩
    · rw [countAT_take_concat (by omega)]
      exact H.clear_le_cur r hr i hold
    · exact absurd hm.symm hclear
  chunk_after_clear := by
    intro i j tid k hij hc hk
    rcases get?_concat_cases hk with ⟨hjl, hkold⟩ | ⟨_, hm⟩
    · rcases get?_concat_cases hc with ⟨_, hcold⟩ | ⟨hie, _⟩
      · rw [countAT_take_concat (by omega)]
        exact H.chunk_after_clear i j tid k hij hcold hkold
      · omega
    · exact absurd hm.symm (hchunk tid k)
  chunk_sent := by
    intro j tid k hk
    rcases get?_concat_cases hk with ⟨_, hkold⟩ | ⟨_, hm⟩
    · exact H.chunk_sent j tid k hkold
    · exact absurd hm.symm (hchunk tid k)
  chunk_mono := by
    intro i j tid k₁ k₂ hij h1 h2
    rcases get?_concat_cases h2 with ⟨hjl, h2old⟩ | ⟨_, hm⟩
    · rcases get?_concat_cases h1 with ⟨_, h1old⟩ | ⟨hie, _⟩
      · exact H.chunk_mono i j tid k₁ k₂ hij h1old h2old
      · omega
    · exact absurd hm.symm (hchunk tid k₂)
  chunk_birth := by
    intro j tid k hk
    rcases get?_concat_cases hk with ⟨hjl, hkold⟩ | ⟨_, hm⟩
    · rw [countAT_take_concat (by omega)]
      exact H.chunk_birth j tid k hkold
    · exact absurd hm.symm (hchunk tid k)

theorem cancelTasks_length (cur : Option Nat) (tasks : List TaskRec) :
    (cancelTasks cur tasks).length = tasks.length := by
  unfold cancelTasks
  cases cur with
  | none => rfl
  | some i =>
      rcases hu : tasks.get? i with _ | u
      · simp only [hu]
      · simp only [hu]
        split
        · simp
        · rfl

theorem cancelTasks_get?_sent (cur : Option Nat) {tasks : List TaskRec}
    {tid : Nat} {t : TaskRec} (h : tasks.get? tid = some t) :
    ∃ t', (cancelTasks cur tasks).get? tid = some t' ∧ t'.sent = t.sent := by
  unfold cancelTasks
  cases cur with
  | none => exact ⟨t, h, rfl⟩
  | some i =>
      rcases hu : tasks.get? i with _ | u
      · simp only [hu]
        exact ⟨t, h, rfl⟩
      · simp only [hu]
        by_cases hus : u.status = TStatus.running
        · rw [if_pos hus]
          by_cases hij : i = tid
          · subst hij
            rw [hu] at h
            injection h with h
            subst h
            have hlt : i < tasks.length := by
              rw [List.get?_eq_some] at hu
              exact hu.1
            exact ⟨_, List.get?_set_eq_of_lt _ hlt, rfl⟩
          · exact ⟨t, by rw [List.get?_set_ne _ _ hij]; exact h, rfl⟩
        · rw [if_neg hus]
          exact ⟨t, h, rfl⟩

theorem cancelTasks_noRunning {cur : Option Nat} {tasks : List TaskRec}
    {out : List BMsg} (H : InvB cur tasks out) :
    NoRunning (cancelTasks cur tasks) := by
  intro j t hj hrun
  unfold cancelTasks at hj
  cases cur with
  | none =>
      have := H.running_cur j t hj hrun
      simp at this
  | some i =>
      rcases hu : tasks.get? i with _ | u
      · simp only [hu] at hj
        have := H.running_cur j t hj hrun
        injection this with hij
        subst hij
        rw [hu] at hj
        cases hj
      · simp only [hu] at hj
        by_cases hus : u.status = TStatus.running
        · rw [if_pos hus] at hj
          by_cases hij : i = j
          · subst hij
            have hlt : i < tasks.length := by
              rw [List.get?_eq_some] at hu
              exact hu.1
            rw [List.get?_set_eq_of_lt _ hlt] at hj
            injection hj with hj
            rw [← hj] at hrun
            simp at hrun
          · rw [List.get?_set_ne _ _ hij] at hj
            have := H.running_cur j t hj hrun
            injection this with h2
            exact hij h2
        · rw [if_neg hus] at hj
          have := H.running_cur j t hj hrun
          injection this with h2
          subst h2
          rw [hu] at hj
          injection hj with hj
          rw [← hj] at hrun
          exact hus hrun

theorem InvB.cancel {cur : Option Nat} {tasks : List TaskRec} {out : List BMsg}
    (H : InvB cur tasks out) :
    InvB none (cancelTasks cur tasks) (out ++ [BMsg.clearAudioQueue]) where
  running_cur := by
    intro i t hi hrun
    exact absurd hrun (cancelTasks_noRunning H i t hi)
  count_tasks := by
    rw [countAT_append,
      countAT_singleton_plain BMsg.clearAudioQueue rfl, Nat.add_zero,
      cancelTasks_length]
    exact H.count_tasks
  clear_le_cur := by
    intro r hr
    simp at hr
  chunk_after_clear := by
    intro i j tid k hij hc hk
    rcases get?_concat_cases hk with ⟨hjl, hkold⟩ | ⟨_, hm⟩
    · rcases get?_concat_cases hc with ⟨_, hcold⟩ | ⟨hie, _⟩
      · rw [countAT_take_concat (by omega)]
        exact H.chunk_after_clear i j tid k hij hcold hkold
      · omega
    · exact BMsg.noConfusion hm
  chunk_sent := by
    intro j tid k hk
    rcases get?_concat_cases hk with ⟨_, hkold⟩ | ⟨_, hm⟩
    · obtain ⟨t, ht, hkt⟩ := H.chunk_sent j tid k hkold
      obtain ⟨t', ht', hs⟩ := cancelTasks_get?_sent cur ht
      exact ⟨t', ht', by omega⟩
    · exact BMsg.noConfusion hm
  chunk_mono := by
    intro i j tid k₁ k₂ hij h1 h2
    rcases get?_concat_cases h2 with ⟨hjl, h2old⟩ | ⟨_, hm⟩
    · rcases get?_concat_cases h1 with ⟨_, h1old⟩ | ⟨hie, _⟩
      · exact H.chunk_mono i j tid k₁ k₂ hij h1old h2old
      · omega
    · exact BMsg.noConfusion hm
  chunk_birth := by
    intro j tid k hk
    rcases get?_concat_cases hk with ⟨hjl, hkold⟩ | ⟨_, hm⟩
    · rw [countAT_take_concat (by omega)]
      exact H.chunk_birth j tid k hkold
    · exact BMsg.noConfusion hm

theorem InvB.final_tail {tasks : List TaskRec} {out : List BMsg}
    (H : InvB none tasks out) (hNR : NoRunning tasks) (s : String) (total : Nat) :
    InvB (some tasks.length) (tasks ++ [⟨0, total, TStatus.running⟩])
      (out ++ [BMsg.assistantText s]) where
  running_cur := by
    intro i t hi hrun
    by_cases hlt : i < tasks.length
    · rw [List.get?_append hlt] at hi
      exact absurd hrun (hNR i t hi)
    · have hlen : i < tasks.length + 1 := by
        have := (List.get?_eq_some.mp hi).1
        simpa using this
      have hieq : i = tasks.length := by omega
      subst hieq
      rfl
  count_tasks := by
    rw [countAT_append]
    have h1 : countAT [BMsg.assistantText s] = 1 := by
      simp [countAT, List.countP_cons, isAT]
    rw [h1]
    simp [H.count_tasks]
  clear_le_cur := by
    intro r hr i hi
    injection hr with hr
    subst hr
    rcases get?_concat_cases hi with ⟨hlt, hold⟩ | ⟨_, hm⟩
    · rw [countAT_take_concat (by omega)]
      calc countAT (out.take (i + 1)) ≤ countAT out := countAT_take_le _ _
        _ = tasks.length := H.count_tasks
    · exact BMsg.noConfusion hm
  chunk_after_clear := by
    intro i j tid k hij hc hk
    rcases get?_concat_cases hk with ⟨hjl, hkold⟩ | ⟨_, hm⟩
    · rcases get?_concat_cases hc with ⟨_, hcold⟩ | ⟨hie, _⟩
      · rw [countAT_take_concat (by omega)]
        exact H.chunk_after_clear i j tid k hij hcold hkold
      · omega
    · exact BMsg.noConfusion hm
  chunk_sent := by
    intro j tid k hk
    rcases get?_concat_cases hk with ⟨_, hkold⟩ | ⟨_, hm⟩
    · obtain ⟨t, ht, hs⟩ := H.chunk_sent j tid k hkold
      have hlt : tid < tasks.length := (List.get?_eq_some.mp ht).1
      exact ⟨t, by rw [List.get?_append hlt]; exact ht, hs⟩
    · exact BMsg.noConfusion hm
  chunk_mono := by
    intro i j tid k₁ k₂ hij h1 h2
    rcases get?_concat_cases h2 with ⟨hjl, h2old⟩ | ⟨_, hm⟩
    · rcases get?_concat_cases h1 with ⟨_, h1old⟩ | ⟨hie, _⟩
      · exact H.chunk_mono i j tid k₁ k₂ hij h1old h2old
      · omega
    · exact BMsg.noConfusion hm
  chunk_birth := by
    intro j tid k hk
    rcases get?_concat_cases hk with ⟨hjl, hkold⟩ | ⟨_, hm⟩
    · rw [countAT_take_concat (by omega)]
      exact H.chunk_birth j tid k hkold
    · exact BMsg.noConfusion hm

theorem InvB.yield_update {i : Nat} {t : TaskRec} {tasks : List TaskRec}
    {out : List BMsg} (H : InvB (some i) tasks out)
    (ht : tasks.get? i = some t) (t2 : TaskRec) (ht2sent : t2.sent = t.sent + 1) :
    InvB (some i) (tasks.set i t2) (out ++ [BMsg.audioChunk i t.sent]) where
  running_cur := by
    intro j u hj hrunU
    by_cases hij : i = j
    · subst hij; rfl
    · rw [List.get?_set_ne _ _ hij] at hj
      exact H.running_cur j u hj hrunU
  count_tasks := by
    rw [countAT_append,
      countAT_singleton_plain (BMsg.audioChunk i t.sent) rfl, Nat.add_zero]
    simp [H.count_tasks]
  clear_le_cur := by
    intro r hr p hp
    rcases get?_concat_cases hp with ⟨hlt, hold⟩ | ⟨_, hm⟩
    · rw [countAT_take_concat (by omega)]
      exact H.clear_le_cur r hr p hold
    · exact BMsg.noConfusion hm
  chunk_after_clear := by
    intro p j tid k hpj hc hk
    rcases get?_concat_cases hk with ⟨hjl, hkold⟩ | ⟨hje, hm⟩
    · rcases get?_concat_cases hc with ⟨_, hcold⟩ | ⟨hpe, _⟩
      · rw [countAT_take_concat (by omega)]
        exact H.chunk_after_clear p j tid k hpj hcold hkold
      · omega
    · injection hm with hm1 hm2
      subst hm1
      rcases get?_concat_cases hc with ⟨_, hcold⟩ | ⟨hpe, _⟩
      · rw [countAT_take_concat (by omega)]
        exact H.clear_le_cur tid rfl p hcold
      · omega
  chunk_sent := by
    intro j tid k hk
    rcases get?_concat_cases hk with ⟨_, hkold⟩ | ⟨hje, hm⟩
    · obtain ⟨u, hu, hku⟩ := H.chunk_sent j tid k hkold
      by_cases hit : i = tid
      · subst hit
        rw [ht] at hu
        injection hu with hu
        subst hu
        have hlt : i < tasks.length := (List.get?_eq_some.mp ht).1
        exact ⟨t2, List.get?_set_eq_of_lt _ hlt, by omega⟩
      · exact ⟨u, by rw [List.get?_set_ne _ _ hit]; exact hu, hku⟩
    · injection hm with hm1 hm2
      subst hm1
      subst hm2
      have hlt : tid < tasks.length := (List.get?_eq_some.mp ht).1
      exact ⟨t2, List.get?_set_eq_of_lt _ hlt, by omega⟩
  chunk_mono := by
    intro p j tid k₁ k₂ hpj h1 h2
    rcases get?_concat_cases h2 with ⟨hjl, h2old⟩ | ⟨hje, hm⟩
    · rcases get?_concat_cases h1 with ⟨_, h1old⟩ | ⟨hpe, _⟩
      · exact H.chunk_mono p j tid k₁ k₂ hpj h1old h2old
      · omega
    · injection hm with hm1 hm2
      subst hm1
      subst hm2
      rcases get?_concat_cases h1 with ⟨_, h1old⟩ | ⟨hpe, _⟩
      · obtain ⟨u, hu, hku⟩ := H.chunk_sent p tid k₁ h1old
        rw [ht] at hu
        injection hu with hu
        subst hu
        omega
      · omega
  chunk_birth := by
    intro j tid k hk
    rcases get?_concat_cases hk with ⟨hjl, hkold⟩ | ⟨hje, hm⟩
    · rw [countAT_take_concat (by omega)]
      exact H.chunk_birth j tid k hkold
    · injection hm with hm1 hm2
      subst hm1
      subst hje
      have hfull : (out ++ [BMsg.audioChunk tid t.sent]).take (out.length + 1)
          = out ++ [BMsg.audioChunk tid t.sent] := by
        rw [List.take_append 1]
        rfl
      rw [hfull, countAT_append,
        countAT_singleton_plain (BMsg.audioChunk tid t.sent) rfl,
        Nat.add_zero, H.count_tasks]
      exact (List.get?_eq_some.mp ht).1

theorem invB_handleFinal (P : BParams) (st : BState)
    (H : InvB st.cur st.tasks st.out) (fin : String) :
    InvB (handleFinal P st fin).cur (handleFinal P st fin).tasks
      (handleFinal P st fin).out := by
  have h1 : InvB none (cancelTasks st.cur st.tasks)
      (st.out ++ [BMsg.clearAudioQueue]) := H.cancel
  have hNR : NoRunning (cancelTasks st.cur st.tasks) := cancelTasks_noRunning H
  have h2 := h1.emit_plain (BMsg.finalTranscript fin)
    (fun h => BMsg.noConfusion h) rfl (fun a b h => BMsg.noConfusion h)
  exact h2.final_tail hNR _ _

theorem invB_stepB (P : BParams) (st : BState)
    (H : InvB st.cur st.tasks st.out) (e : BEv) :
    InvB (stepB P st e).cur (stepB P st e).tasks (stepB P st e).out := by
  cases e with
  | ping =>
      exact H.emit_plain BMsg.pong (fun h => BMsg.noConfusion h) rfl
        (fun a b h => BMsg.noConfusion h)
  | otherText => exact H
  | stopReset =>
      have h1 : InvB (clearHistory st).cur (clearHistory st).tasks
          (clearHistory st).out := H
      have h2 : InvB none (cancelTasks st.cur st.tasks)
          (st.out ++ [BMsg.clearAudioQueue]) := h1.cancel
      exact h2.emit_plain BMsg.sessionReset (fun h => BMsg.noConfusion h) rfl
        (fun a b h => BMsg.noConfusion h)
  | recog fin ptxt =>
      by_cases hp : ptxt = ""
      · by_cases hf : fin = ""
        · simp only [stepB, if_pos hp, if_pos hf]
          exact H
        · simp only [stepB, if_pos hp, if_neg hf]
          exact invB_handleFinal P st H fin
      · have H1 : InvB st.cur st.tasks (st.out ++ [BMsg.interim ptxt]) :=
          H.emit_plain (BMsg.interim ptxt) (fun h => BMsg.noConfusion h) rfl
            (fun a b h => BMsg.noConfusion h)
        by_cases hf : fin = ""
        · simp only [stepB, if_neg hp, if_pos hf]
          exact H1
        · simp only [stepB, if_neg hp, if_neg hf]
          exact invB_handleFinal P (emitMsgs st [BMsg.interim ptxt]) H1 fin
  | yieldTTS =>
      rcases hcur : st.cur with _ | i
      · simp only [stepB, hcur]
        exact hcur ▸ H
      · rcases htask : st.tasks.get? i with _ | t
        · simp only [stepB, hcur, htask]
          exact hcur ▸ H
        · by_cases hcond : t.status = TStatus.running ∧ t.sent < t.total
          · simp only [stepB, hcur, htask, if_pos hcond]
            have H2 : InvB (some i) st.tasks st.out := hcur ▸ H
            exact H2.yield_update htask
              ⟨t.sent + 1, t.total,
               if t.sent + 1 = t.total then TStatus.finished else TStatus.running⟩ rfl
          · simp only [stepB, hcur, htask, if_neg hcond]
            exact hcur ▸ H

theorem invB_runB (P : BParams) (evs : List BEv) :
    InvB (runB P evs).cur (runB P evs).tasks (runB P evs).out := by
  have hgen : ∀ (l : List BEv) (st : BState),
      InvB st.cur st.tasks st.out →
      InvB (l.foldl (stepB P) st).cur (l.foldl (stepB P) st).tasks
        (l.foldl (stepB P) st).out := by
    intro l
    induction l with
    | nil => intro st H; exact H
    | cons e l ih => intro st H; exact ih _ (invB_stepB P st H e)
  refine hgen evs initB ?_
  constructor <;> intros <;> simp_all [initB, countAT]

/-! ## Claim theorems -/

/-- C4 counterexample: the claim "the history length never exceeds the
configured bound N (default 6) after any mutation" is false for the
conversation history of `ConversationPipeline` (src/server/pipeline.py:
147-149): after four processed turns its `_history` holds 8 entries.
The engines are instantiated with constant transcribe/reply functions. -/
theorem history_bound_counterexample :
    (runS ⟨fun _ => "hi", fun _ _ => "yo", fun _ => [], 16000⟩
      [SEv.audio [1], SEv.stop, SEv.audio [1], SEv.stop,
       SEv.audio [1], SEv.stop, SEv.audio [1], SEv.stop]).1.history.length = 8 ∧
    ¬((runS ⟨fun _ => "hi", fun _ _ => "yo", fun _ => [], 16000⟩
      [SEv.audio [1], SEv.stop, SEv.audio [1], SEv.stop,
       SEv.audio [1], SEv.stop, SEv.audio [1], SEv.stop]).1.history.length ≤ 6) := by
  constructor
  · decide
  · decide

/-- C4 amended: the bound holds for the backend `ConversationManager`
(`_append` keeps at most `max_history` turns and evicts the oldest
first — the retained list is exactly the most recent `n` insertions),
while the server `ConversationPipeline` appends two entries per
processed turn with no eviction, so its history is unbounded. -/
theorem history_bound_amended :
    (∀ (n : Nat) (us : List Utt),
      (us.foldl (appendBounded n) []).length ≤ n ∧
      us.foldl (appendBounded n) [] = us.drop (us.length - n)) ∧
    (∀ (E : SEngines) (p : SPipe) (r : ProcOut) (p' : SPipe),
      p.process E = (some r, p') →
      p'.history = p.history ++ ["User: " ++ r.transcript, "Assistant: " ++ r.reply]) := by
  constructor
  · intro n us
    have h := foldl_appendBounded_lastN n us
    constructor
    · rw [h, List.length_drop]
      omega
    · exact h
  · intro E p r p' hp
    exact (process_eq_some hp).2.2.2.2.1

/-- Witness for C4 amended at concrete inputs. -/
theorem history_bound_amended_witness :
    ((SPipe.mk [[1]] []).process ⟨fun _ => "hi", fun _ _ => "yo", fun _ => [], 16000⟩
        = (some ⟨"hi", "yo", [], 16000⟩, ⟨[[1]], ["User: hi", "Assistant: yo"]⟩)) ∧
    (SPipe.mk [[1]] ["User: hi", "Assistant: yo"]).history
        = (SPipe.mk [[1]] []).history ++ ["User: " ++ "hi", "Assistant: " ++ "yo"] ∧
    ((List.replicate 9 (Utt.mk "user" "x")).foldl (appendBounded 6) []).length ≤ 6 :=
  ⟨by decide,
   history_bound_amended.2 ⟨fun _ => "hi", fun _ _ => "yo", fun _ => [], 16000⟩
     ⟨[[1]], []⟩ ⟨"hi", "yo", [], 16000⟩ ⟨[[1]], ["User: hi", "Assistant: yo"]⟩
     (by decide),
   (history_bound_amended.1 6 (List.replicate 9 ⟨"user", "x"⟩)).1⟩

/-- C3: for every sequence of audio chunks appended since the last
utterance start, draining (merging) the buffer yields exactly the
concatenation of those chunks in arrival order, with no loss,
duplication or reordering; appending an empty chunk is a no-op, and
`append_audio` is a total function of the pipeline state and the chunk. -/
theorem audio_buffer_append_drain_exact :
    (∀ (p : SPipe), appendAudio p [] = p) ∧
    (∀ (p : SPipe) (cs : List (List Int)),
      merge_chunks ((cs.foldl appendAudio (startUtterance p)).chunks) = cs.flatten) := by
  constructor
  · intro p; rfl
  · intro p cs
    rw [merge_chunks_eq_flatten, flatten_chunks_foldl_appendAudio]
    simp [startUtterance]

/-- C10: the float-to-int16 PCM conversion (both
`audio_utils.float32_to_int16` and `SpeechSynthesizer._to_int16`) is a
total function and every output sample lies within `[-32767, 32767]`,
because the input is clipped to `[-1, 1]` before scaling by 32767. -/
theorem float_to_int16_output_in_range :
    ∀ (l : List Rat) (y : Int),
      y ∈ float32_to_int16 l ∨ y ∈ toInt16Backend l →
      -32767 ≤ y ∧ y ≤ 32767 := by
  intro l y hy
  have hex : ∃ x, y = float32ToInt16Sample x := by
    rcases hy with h | h
    · rcases List.mem_map.mp h with ⟨x, _, hx⟩; exact ⟨x, hx.symm⟩
    · rcases List.mem_map.mp h with ⟨x, _, hx⟩; exact ⟨x, hx.symm⟩
  rcases hex with ⟨x, rfl⟩
  exact float32ToInt16Sample_bounds x

/-- C1: barge-in invariant.  In any reachable backend trace:
(i) an audio chunk delivered after a `clear_audio_queue` belongs to a
synthesis task created after that notification — its task index is at
least the number of `assistant_text` messages (which equals the number of
tasks created, invariant `count_tasks`) up to and including the clear;
(ii) every audio chunk's task index is below the `assistant_text` count
up to its own position, so a task active at any point before the clear
has an index strictly below the bound of (i): no chunk of a previously
active synthesis task is delivered after the corresponding
`clear_audio_queue`.  (iii) Cancellation completes before the
notification and before any new-turn message: `cancel_tts` emits the
`clear_audio_queue` as its last action, and in the state it returns —
before any message of the new turn is appended — no synthesis task is
running any more. -/
theorem barge_in_no_stale_chunk_after_clear :
    (∀ (P : BParams) (evs : List BEv) (i j tid k : Nat),
      i < j →
      (runB P evs).out.get? i = some BMsg.clearAudioQueue →
      (runB P evs).out.get? j = some (BMsg.audioChunk tid k) →
      countAT ((runB P evs).out.take (i + 1)) ≤ tid) ∧
    (∀ (P : BParams) (evs : List BEv) (j tid k : Nat),
      (runB P evs).out.get? j = some (BMsg.audioChunk tid k) →
      tid < countAT ((runB P evs).out.take (j + 1))) ∧
    (∀ (P : BParams) (evs : List BEv),
      (cancelTts (runB P evs)).out
          = (runB P evs).out ++ [BMsg.clearAudioQueue] ∧
      NoRunning (cancelTts (runB P evs)).tasks) := by
  refine ⟨?_, ?_, ?_⟩
  · intro P evs i j tid k hij hc hk
    exact (invB_runB P evs).chunk_after_clear i j tid k hij hc hk
  · intro P evs j tid k hk
    exact (invB_runB P evs).chunk_birth j tid k hk
  · intro P evs
    exact ⟨rfl, cancelTasks_noRunning (invB_runB P evs)⟩

/-- Witness for C1 on a concrete session: one finalized transcript, then
one scheduler step of the synthesis task. -/
theorem barge_in_no_stale_chunk_after_clear_witness :
    (0 : Nat) < 3 ∧
    (runB ⟨"12:00", fun _ => 2⟩ [BEv.recog "hello" "", BEv.yieldTTS]).out.get? 0
      = some BMsg.clearAudioQueue ∧
    (runB ⟨"12:00", fun _ => 2⟩ [BEv.recog "hello" "", BEv.yieldTTS]).out.get? 3
      = some (BMsg.audioChunk 0 0) ∧
    countAT ((runB ⟨"12:00", fun _ => 2⟩
      [BEv.recog "hello" "", BEv.yieldTTS]).out.take 1) ≤ 0 ∧
    0 < countAT ((runB ⟨"12:00", fun _ => 2⟩
      [BEv.recog "hello" "", BEv.yieldTTS]).out.take 4) :=
  ⟨by decide, by decide, by decide,
   barge_in_no_stale_chunk_after_clear.1 ⟨"12:00", fun _ => 2⟩
     [BEv.recog "hello" "", BEv.yieldTTS] 0 3 0 0
     (by decide) (by decide) (by decide),
   barge_in_no_stale_chunk_after_clear.2.1 ⟨"12:00", fun _ => 2⟩
     [BEv.recog "hello" "", BEv.yieldTTS] 3 0 0 (by decide)⟩

/-- C2: at most one synthesis task is active per session at any instant:
in every reachable backend session state, any two running tasks of the
arena coincide.  A new task is only started by the finalized-transcript
handler after `cancel_tts` has cancelled and awaited the previous one to
a terminal state. -/
theorem single_active_synthesis_task :
    ∀ (P : BParams) (evs : List BEv) (i j : Nat) (t u : TaskRec),
      (runB P evs).tasks.get? i = some t →
      (runB P evs).tasks.get? j = some u →
      t.status = TStatus.running → u.status = TStatus.running → i = j := by
  intro P evs i j t u hi hj ht hu
  have H := invB_runB P evs
  have h1 := H.running_cur i t hi ht
  have h2 := H.running_cur j u hj hu
  rw [h1] at h2
  exact Option.some.inj h2

/-- Witness for C2 at a concrete session with one synthesis task. -/
theorem single_active_synthesis_task_witness :
    ((runB ⟨"12:00", fun _ => 2⟩ [BEv.recog "hello" ""]).tasks.get? 0
        = some ⟨0, 2, TStatus.running⟩) ∧
    TStatus.running = TStatus.running ∧ (0 : Nat) = 0 :=
  ⟨by decide, rfl,
   single_active_synthesis_task ⟨"12:00", fun _ => 2⟩ [BEv.recog "hello" ""]
     0 0 ⟨0, 2, TStatus.running⟩ ⟨0, 2, TStatus.running⟩
     (by decide) (by decide) rfl rfl⟩

/-- C5 counterexample: the claim "no assistant reply is produced on a
whitespace-only finalized transcript" is false for the backend: on the
finalized transcript `" "` the session emits an `assistant_text` reply
(the fixed fallback of `ConversationManager.generate_response`) and
starts a synthesis task for it — though the history is indeed left
untouched. -/
theorem empty_transcript_counterexample :
    (runB ⟨"12:00", fun _ => 2⟩ [BEv.recog " " ""]).out
      = [BMsg.clearAudioQueue, BMsg.finalTranscript " ",
         BMsg.assistantText "I\x27m still listening. Could you repeat that?"] ∧
    (runB ⟨"12:00", fun _ => 2⟩ [BEv.recog " " ""]).tasks
      = [⟨0, 2, TStatus.running⟩] ∧
    (runB ⟨"12:00", fun _ => 2⟩ [BEv.recog " " ""]).history = [] :=
  ⟨by decide, by decide, by decide⟩

/-- C5 amended: on an empty or whitespace-only finalized transcript no
turns are appended to the conversation history and the response builder
is not invoked; the server pipeline produces no reply at all (`process`
returns `None` and leaves the state unchanged), while the backend
`generate_response` returns the fixed fallback reply
"I'm still listening. Could you repeat that?" — which is then sent and
synthesized — without touching the history. -/
theorem empty_transcript_amended :
    (∀ (E : SEngines) (p : SPipe),
      E.transcribe (int16_to_float32 (merge_chunks p.chunks)) = "" →
      p.process E = (none, p)) ∧
    (∀ (now : String) (h : List Utt) (s : String),
      pyStrip s = "" →
      generateResponse now h s
        = (h, "I\x27m still listening. Could you repeat that?")) := by
  constructor
  · intro E p ht
    simp [SPipe.process, ht]
  · intro now h s hs
    simp [generateResponse, hs]

/-- Witness for C5 amended at concrete whitespace inputs. -/
theorem empty_transcript_amended_witness :
    ((SEngines.mk (fun _ => "") (fun _ _ => "yo") (fun _ => []) 16000).transcribe
        (int16_to_float32 (merge_chunks (SPipe.mk [[1]] []).chunks)) = "" ∧
      (SPipe.mk [[1]] []).process ⟨fun _ => "", fun _ _ => "yo", fun _ => [], 16000⟩
        = (none, ⟨[[1]], []⟩)) ∧
    (pyStrip " " = "" ∧
      generateResponse "12:00" [] " "
        = ([], "I\x27m still listening. Could you repeat that?")) :=
  ⟨⟨rfl, empty_transcript_amended.1 ⟨fun _ => "", fun _ _ => "yo", fun _ => [], 16000⟩
      ⟨[[1]], []⟩ rfl⟩,
   ⟨by decide, empty_transcript_amended.2 "12:00" [] " " (by decide)⟩⟩

/-- C6 counterexample: the claim "a stop message forces drain-and-finalize
rather than discarding the buffered audio or clearing session state" is
false for the backend (src/backend/main.py:81-86): with a previous turn
in the conversation history and buffered, partially recognized audio
("wai"), a `stop` clears the conversation state and emits only
`clear_audio_queue` and `session_reset`: no transcript of the buffered
audio and no reply are produced. -/
theorem stop_discards_counterexample :
    (runB ⟨"12:00", fun _ => 2⟩ [BEv.recog "hello" ""]).history
      = [⟨"user", "hello"⟩, ⟨"assistant", "Hello! How can I help you today?"⟩] ∧
    (runB ⟨"12:00", fun _ => 2⟩
        [BEv.recog "hello" "", BEv.recog "" "wai", BEv.stopReset]).history = [] ∧
    (runB ⟨"12:00", fun _ => 2⟩
        [BEv.recog "hello" "", BEv.recog "" "wai", BEv.stopReset]).out
      = [BMsg.clearAudioQueue, BMsg.finalTranscript "hello",
         BMsg.assistantText "Hello! How can I help you today?",
         BMsg.interim "wai",
         BMsg.clearAudioQueue, BMsg.sessionReset] :=
  ⟨by decide, by decide, by decide⟩

/-- C6 amended: the two implementations diverge on `stop`.  In the server
(src/server/app.py:91-107) a `stop` with buffered audio and a nonempty
transcript drains the buffer and finalizes the turn — transcript, reply,
audio and end marker are emitted and the history grows by the turn.  In
the backend (src/backend/main.py:81-86) `stop` is handled identically to
`reset`: it clears the conversation state, cancels any synthesis and
emits `clear_audio_queue` followed by `session_reset`, discarding the
buffered utterance. -/
theorem stop_amended :
    (∀ (E : SEngines) (p : SPipe) (ms : List SMsg) (t r : String),
      hasAudio p = true →
      t = E.transcribe (int16_to_float32 (merge_chunks p.chunks)) →
      t ≠ "" →
      r = E.reply t p.history →
      stepS E (p, ms) SEv.stop
        = (⟨[], p.history ++ ["User: " ++ t, "Assistant: " ++ r]⟩,
           ms ++ [SMsg.transcript t, SMsg.assistantResponse r E.sampleRate,
                  SMsg.audioFrame (float32_to_int16 (E.synth r)),
                  SMsg.assistantAudioEnd])) ∧
    (∀ (P : BParams) (st : BState),
      (stepB P st BEv.stopReset).history = [] ∧
      (stepB P st BEv.stopReset).out
        = st.out ++ [BMsg.clearAudioQueue, BMsg.sessionReset]) := by
  constructor
  · intro E p ms t r ha htdef ht hrdef
    subst htdef
    subst hrdef
    have hp : p.process E
        = (some ⟨E.transcribe (int16_to_float32 (merge_chunks p.chunks)),
                 E.reply (E.transcribe (int16_to_float32 (merge_chunks p.chunks))) p.history,
                 float32_to_int16 (E.synth (E.reply
                   (E.transcribe (int16_to_float32 (merge_chunks p.chunks))) p.history)),
                 E.sampleRate⟩,
           { p with history := (p.history ++
               ["User: " ++ E.transcribe (int16_to_float32 (merge_chunks p.chunks))]) ++
               ["Assistant: " ++ E.reply
                 (E.transcribe (int16_to_float32 (merge_chunks p.chunks))) p.history] }) := by
      simp [SPipe.process, ha, ht]
    simp [stepS, hp, startUtterance]
  · intro P st
    refine ⟨rfl, ?_⟩
    simp [stepB, emitMsgs, cancelTts, clearHistory]

/-- Witness for C6 amended at a concrete server session and state. -/
theorem stop_amended_witness :
    hasAudio ⟨[[1]], []⟩ = true ∧ ("hello" : String) ≠ "" ∧
    stepS ⟨fun _ => "hello", fun _ _ => "hi there", fun _ => [], 16000⟩
        (⟨[[1]], []⟩, []) SEv.stop
      = (⟨[], ["User: hello", "Assistant: hi there"]⟩,
         [SMsg.transcript "hello", SMsg.assistantResponse "hi there" 16000,
          SMsg.audioFrame [], SMsg.assistantAudioEnd]) :=
  ⟨by decide, by decide,
   stop_amended.1 ⟨fun _ => "hello", fun _ _ => "hi there", fun _ => [], 16000⟩
     ⟨[[1]], []⟩ [] "hello" "hi there" (by decide) rfl (by decide) rfl⟩

/-- C7 counterexample: the claimed fixed order ends with an
`assistant_audio_end` end marker, but the backend never emits any end
marker: here a backend turn runs to completion — the synthesis task
finishes after its two chunks — and the complete trace for the turn is
clear_audio_queue, final_transcript, assistant_text, then the two audio
chunks, with no further message of any kind (src/backend/main.py sends
no `assistant_audio_end`). -/
theorem turn_end_marker_counterexample :
    (runB ⟨"12:00", fun _ => 2⟩
        [BEv.recog "hello" "", BEv.yieldTTS, BEv.yieldTTS]).out
      = [BMsg.clearAudioQueue, BMsg.finalTranscript "hello",
         BMsg.assistantText "Hello! How can I help you today?",
         BMsg.audioChunk 0 0, BMsg.audioChunk 0 1] ∧
    (runB ⟨"12:00", fun _ => 2⟩
        [BEv.recog "hello" "", BEv.yieldTTS, BEv.yieldTTS]).tasks
      = [⟨2, 2, TStatus.finished⟩] :=
  ⟨by decide, by decide⟩

/-- C7 amended: fixed per-turn message order, per implementation.
(i) Server path: whenever `process` produces a reply, the `stop` handler
appends exactly transcript → assistant_response → audio →
assistant_audio_end, in that order, to the session trace.  (ii) Backend
path: a nonempty finalized transcript appends exactly
clear_audio_queue → final_transcript → assistant_text, in that order,
before the synthesis task exists, and (iii) the reply's audio chunks are
then emitted strictly in sequence — along any reachable trace the chunk
indices of one synthesis task are strictly increasing; no end marker is
emitted on this path. -/
theorem turn_message_order :
    (∀ (E : SEngines) (p : SPipe) (ms : List SMsg) (r : ProcOut) (p' : SPipe),
      p.process E = (some r, p') →
      stepS E (p, ms) SEv.stop
        = (startUtterance p',
           ms ++ [SMsg.transcript r.transcript,
                  SMsg.assistantResponse r.reply r.sampleRate,
                  SMsg.audioFrame r.audio,
                  SMsg.assistantAudioEnd])) ∧
    (∀ (P : BParams) (st : BState) (fin : String), fin ≠ "" →
      (stepB P st (BEv.recog fin "")).out
        = st.out ++ [BMsg.clearAudioQueue, BMsg.finalTranscript fin,
            BMsg.assistantText (generateResponse P.now st.history fin).2]) ∧
    (∀ (P : BParams) (evs : List BEv) (i j tid k₁ k₂ : Nat),
      i < j →
      (runB P evs).out.get? i = some (BMsg.audioChunk tid k₁) →
      (runB P evs).out.get? j = some (BMsg.audioChunk tid k₂) →
      k₁ < k₂) := by
  refine ⟨?_, ?_, ?_⟩
  · intro E p ms r p' hp
    simp [stepS, hp]
  · intro P st fin hfin
    have hstep : stepB P st (BEv.recog fin "") = handleFinal P st fin := by
      simp [stepB, hfin]
    rw [hstep]
    simp [handleFinal, emitMsgs, cancelTts, startTask]
  · intro P evs i j tid k₁ k₂ hij h1 h2
    exact (invB_runB P evs).chunk_mono i j tid k₁ k₂ hij h1 h2

/-- Witness for C7 amended: a concrete server stop-turn, a concrete
backend finalized transcript, and two consecutive audio chunks of one
backend synthesis task. -/
theorem turn_message_order_witness :
    ((SPipe.mk [[1]] []).process
        ⟨fun _ => "hello", fun _ _ => "hi there", fun _ => [], 16000⟩
      = (some ⟨"hello", "hi there", [], 16000⟩,
         ⟨[[1]], ["User: hello", "Assistant: hi there"]⟩)) ∧
    ((runB ⟨"12:00", fun _ => 2⟩
        [BEv.recog "hello" "", BEv.yieldTTS, BEv.yieldTTS]).out.get? 3
      = some (BMsg.audioChunk 0 0)) ∧
    stepS ⟨fun _ => "hello", fun _ _ => "hi there", fun _ => [], 16000⟩
        (⟨[[1]], []⟩, []) SEv.stop
      = (startUtterance ⟨[[1]], ["User: hello", "Assistant: hi there"]⟩,
         [] ++ [SMsg.transcript "hello", SMsg.assistantResponse "hi there" 16000,
                SMsg.audioFrame [], SMsg.assistantAudioEnd]) ∧
    ((stepB ⟨"12:00", fun _ => 2⟩ initB (BEv.recog "hello" "")).out
      = initB.out ++ [BMsg.clearAudioQueue, BMsg.finalTranscript "hello",
          BMsg.assistantText
            (generateResponse "12:00" initB.history "hello").2]) ∧
    (0 : Nat) < 1 :=
  ⟨by decide, by decide,
   turn_message_order.1 ⟨fun _ => "hello", fun _ _ => "hi there", fun _ => [], 16000⟩
     ⟨[[1]], []⟩ [] ⟨"hello", "hi there", [], 16000⟩
     ⟨[[1]], ["User: hello", "Assistant: hi there"]⟩ (by decide),
   turn_message_order.2.1 ⟨"12:00", fun _ => 2⟩ initB "hello" (by decide),
   turn_message_order.2.2 ⟨"12:00", fun _ => 2⟩
     [BEv.recog "hello" "", BEv.yieldTTS, BEv.yieldTTS] 3 4 0 0 1
     (by decide) (by decide) (by decide)⟩

/-- C8 counterexample: on the very first finalized transcript of a backend
session — no synthesis task has ever existed — the emitted trace
nevertheless begins with `clear_audio_queue`: `cancel_tts` sends the
notification unconditionally (src/backend/main.py:59-61), refuting "the
server emits no clear_audio_queue for a turn with no active synthesis". -/
theorem clear_queue_first_turn_counterexample :
    initB.tasks = [] ∧
    (runB ⟨"12:00", fun _ => 2⟩ [BEv.recog "hello" ""]).out
      = [BMsg.clearAudioQueue, BMsg.finalTranscript "hello",
         BMsg.assistantText "Hello! How can I help you today?"] :=
  ⟨rfl, by decide⟩

/-- C8 amended: `clear_audio_queue` is not restricted to barge-in
cancellation of an active synthesis: the backend emits it as the first
message of the handler on every nonempty finalized transcript and on
every stop/reset, whether or not a synthesis task was active. -/
theorem clear_queue_amended :
    (∀ (P : BParams) (st : BState) (fin : String), fin ≠ "" →
      (stepB P st (BEv.recog fin "")).out.take (st.out.length + 1)
        = st.out ++ [BMsg.clearAudioQueue]) ∧
    (∀ (P : BParams) (st : BState),
      (stepB P st BEv.stopReset).out.take (st.out.length + 1)
        = st.out ++ [BMsg.clearAudioQueue]) := by
  constructor
  · intro P st fin hfin
    have hstep : stepB P st (BEv.recog fin "") = handleFinal P st fin := by
      simp [stepB, hfin]
    rw [hstep]
    have hout : (handleFinal P st fin).out
        = st.out ++ ([BMsg.clearAudioQueue] ++
            ([BMsg.finalTranscript fin] ++
             [BMsg.assistantText (generateResponse P.now st.history fin).2])) := by
      simp [handleFinal, emitMsgs, cancelTts, startTask]
    rw [hout, List.take_append 1]
    rfl
  · intro P st
    have hout : (stepB P st BEv.stopReset).out
        = st.out ++ ([BMsg.clearAudioQueue] ++ [BMsg.sessionReset]) := by
      simp [stepB, emitMsgs, cancelTts, clearHistory]
    rw [hout, List.take_append 1]
    rfl

/-- Witness for C8 amended at the initial state and a concrete transcript. -/
theorem clear_queue_amended_witness :
    ("hi" : String) ≠ "" ∧
    (stepB ⟨"x", fun _ => 0⟩ initB (BEv.recog "hi" "")).out.take
        (initB.out.length + 1)
      = initB.out ++ [BMsg.clearAudioQueue] :=
  ⟨by decide, clear_queue_amended.1 ⟨"x", fun _ => 0⟩ initB "hi" (by decide)⟩

/-- C9: a reset clears the audio buffer and the conversation state and
cancels any active synthesis, regardless of the prior session state: in
the backend, after the stop/reset handler runs from any reachable state,
the conversation history is empty, the task reference is dropped and no
synthesis task is left running (the streaming recognizer, which holds
the backend's buffered audio, is reconstructed by `recognizer.reset()`);
in the server, `reset` empties both the chunk buffer and the history. -/
theorem reset_clears_state :
    (∀ (P : BParams) (evs : List BEv),
      (stepB P (runB P evs) BEv.stopReset).history = [] ∧
      (stepB P (runB P evs) BEv.stopReset).cur = none ∧
      (∀ (i : Nat) (t : TaskRec),
        (stepB P (runB P evs) BEv.stopReset).tasks.get? i = some t →
        t.status ≠ TStatus.running)) ∧
    (∀ (p : SPipe), (resetPipe p).chunks = [] ∧ (resetPipe p).history = []) := by
  constructor
  · intro P evs
    refine ⟨rfl, rfl, ?_⟩
    exact cancelTasks_noRunning (invB_runB P evs)
  · intro p
    exact ⟨rfl, rfl⟩

/-- Witness for C9: a concrete reset of a session whose synthesis task
was mid-stream; the task ends cancelled, not running. -/
theorem reset_clears_state_witness :
    ((stepB ⟨"12:00", fun _ => 2⟩
        (runB ⟨"12:00", fun _ => 2⟩ [BEv.recog "hello" "", BEv.yieldTTS])
        BEv.stopReset).tasks.get? 0 = some ⟨1, 2, TStatus.cancelled⟩) ∧
    TStatus.cancelled ≠ TStatus.running :=
  ⟨by decide,
   (reset_clears_state.1 ⟨"12:00", fun _ => 2⟩
      [BEv.recog "hello" "", BEv.yieldTTS]).2.2 0 ⟨1, 2, TStatus.cancelled⟩
      (by decide)⟩

/-- Witness for C10 at the concrete out-of-range input `[2]`. -/
theorem float_to_int16_output_in_range_witness :
    ((32767 : Int) ∈ float32_to_int16 [2] ∨ (32767 : Int) ∈ toInt16Backend [2]) ∧
    (-32767 ≤ (32767 : Int) ∧ (32767 : Int) ≤ 32767) :=
  ⟨Or.inl (by simp [float32_to_int16, float32ToInt16Sample, clipUnit,
     truncToInt, int16OfInt]),
   float_to_int16_output_in_range [2] 32767 (Or.inl (by
     simp [float32_to_int16, float32ToInt16Sample, clipUnit,
       truncToInt, int16OfInt]))⟩

end VoiceConv
